import Mathlib

/-!
Verification of the lunardb_api core: a shallow embedding of the Go sources
(package `middleware`: `IPRateLimiter` with `AddClient`, `GetLimiter`,
`CleanupStaleClients`, `RateLimitMiddleware`; package `main`: `LunarDB` with
`Set`, `Get`, `Del`, `Keys` and the request handlers), together with theorems
about the store, the rate-limiter registry and the admission middleware.

Go maps are embedded as association lists (`List (String × α)`); the
well-formedness of a map is the `KeysNodup` predicate, preserved by every
operation.  Wall-clock reads (`time.Now()`) become an explicit `now : ℚ`
argument (seconds).  The non-reentrant `sync.Mutex` is embedded explicitly:
acquiring a mutex that the current call already holds can never succeed, so an
operation that does this returns `none` (it blocks forever).  Fallible /
possibly-blocking operations therefore return `Option`.
-/

/-! ## Association-list model of Go maps -/

/-- Go read `m[k]` (comma-ok form): the value stored at `k`, if present. -/
def listLookup {α : Type} (k : String) : List (String × α) → Option α
  | [] => none
  | (k1, v) :: rest => if k1 = k then some v else listLookup k rest

/-- Go write `m[k] = v`: insert or overwrite the binding for `k`. -/
def listSet {α : Type} (k : String) (v : α) : List (String × α) → List (String × α)
  | [] => [(k, v)]
  | (k1, v1) :: rest => if k1 = k then (k, v) :: rest else (k1, v1) :: listSet k v rest

/-- Go `delete(m, k)`: remove the binding for `k`. -/
def listDel {α : Type} (k : String) : List (String × α) → List (String × α)
  | [] => []
  | (k1, v1) :: rest => if k1 = k then listDel k rest else (k1, v1) :: listDel k rest

/-- Well-formedness of an embedded Go map: its keys are pairwise distinct. -/
def KeysNodup {α : Type} (m : List (String × α)) : Prop :=
  (m.map Prod.fst).Nodup

theorem listLookup_set_self {α : Type} (k : String) (v : α) :
    ∀ m : List (String × α), listLookup k (listSet k v m) = some v := by
  intro m
  induction m with
  | nil => simp [listSet, listLookup]
  | cons hd tl ih =>
    obtain ⟨k1, v1⟩ := hd
    by_cases h : k1 = k
    · simp [listSet, listLookup, h]
    · simp [listSet, listLookup, h, ih]

theorem listLookup_set_other {α : Type} (k j : String) (v : α) (hne : j ≠ k) :
    ∀ m : List (String × α), listLookup j (listSet k v m) = listLookup j m := by
  intro m
  have hkj : ¬k = j := fun h => hne h.symm
  induction m with
  | nil => simp [listSet, listLookup, hkj]
  | cons hd tl ih =>
    obtain ⟨k1, v1⟩ := hd
    by_cases h : k1 = k
    · subst h
      simp [listSet, listLookup, hkj]
    · simp [listSet, listLookup, h, ih]

theorem listLookup_del_self {α : Type} (k : String) :
    ∀ m : List (String × α), listLookup k (listDel k m) = none := by
  intro m
  induction m with
  | nil => simp [listDel, listLookup]
  | cons hd tl ih =>
    obtain ⟨k1, v1⟩ := hd
    by_cases h : k1 = k <;> simp [listDel, listLookup, h, ih]

theorem listLookup_del_other {α : Type} (k j : String) (hne : j ≠ k) :
    ∀ m : List (String × α), listLookup j (listDel k m) = listLookup j m := by
  intro m
  have hkj : ¬k = j := fun h => hne h.symm
  induction m with
  | nil => simp [listDel]
  | cons hd tl ih =>
    obtain ⟨k1, v1⟩ := hd
    by_cases h : k1 = k
    · subst h
      simp [listDel, listLookup, hkj, ih]
    · simp [listDel, listLookup, h, ih]

theorem listSet_keys_of_mem {α : Type} (k : String) (v : α) :
    ∀ m : List (String × α), listLookup k m ≠ none →
      (listSet k v m).map Prod.fst = m.map Prod.fst := by
  intro m
  induction m with
  | nil => intro h; simp [listLookup] at h
  | cons hd tl ih =>
    obtain ⟨k1, v1⟩ := hd
    intro h
    by_cases hk : k1 = k
    · simp [listSet, hk]
    · simp only [listLookup, if_neg hk] at h
      simp [listSet, hk, ih h]

theorem listSet_keys_of_absent {α : Type} (k : String) (v : α) :
    ∀ m : List (String × α), listLookup k m = none →
      (listSet k v m).map Prod.fst = m.map Prod.fst ++ [k] := by
  intro m
  induction m with
  | nil => intro _; simp [listSet]
  | cons hd tl ih =>
    obtain ⟨k1, v1⟩ := hd
    intro h
    by_cases hk : k1 = k
    · simp [listLookup, hk] at h
    · simp only [listLookup, if_neg hk] at h
      simp [listSet, hk, ih h]

theorem listLookup_eq_none_of_not_mem {α : Type} (k : String) :
    ∀ m : List (String × α), k ∉ m.map Prod.fst → listLookup k m = none := by
  intro m
  induction m with
  | nil => intro _; rfl
  | cons hd tl ih =>
    obtain ⟨k1, v1⟩ := hd
    intro h
    simp only [List.map_cons, List.mem_cons] at h
    push_neg at h
    have hk1 : ¬k1 = k := fun he => h.1 he.symm
    simp [listLookup, hk1, ih h.2]

theorem listLookup_isSome_iff_mem {α : Type} (k : String) :
    ∀ m : List (String × α), (listLookup k m).isSome = true ↔ k ∈ m.map Prod.fst := by
  intro m
  induction m with
  | nil => simp [listLookup]
  | cons hd tl ih =>
    obtain ⟨k1, v1⟩ := hd
    by_cases h : k1 = k
    · subst h
      simp [listLookup]
    · have hk : ¬k = k1 := fun he => h he.symm
      simp [listLookup, h, ih, hk]

theorem keysNodup_listSet {α : Type} (k : String) (v : α) (m : List (String × α))
    (hnd : KeysNodup m) : KeysNodup (listSet k v m) := by
  unfold KeysNodup
  rcases h : listLookup k m with _ | w
  · rw [listSet_keys_of_absent k v m h]
    have hk : k ∉ m.map Prod.fst := by
      intro hmem
      rw [← listLookup_isSome_iff_mem] at hmem
      rw [h] at hmem
      simp at hmem
    simpa [List.nodup_append, hk] using hnd
  · rw [listSet_keys_of_mem k v m (by simp [h])]
    exact hnd

theorem listDel_keys_subset {α : Type} (k : String) :
    ∀ m : List (String × α), (listDel k m).map Prod.fst ⊆ m.map Prod.fst := by
  intro m
  induction m with
  | nil => simp [listDel]
  | cons hd tl ih =>
    obtain ⟨k1, v1⟩ := hd
    by_cases h : k1 = k
    · simp only [listDel, if_pos h, List.map_cons]
      exact fun a ha => List.mem_cons_of_mem _ (ih ha)
    · simp only [listDel, if_neg h, List.map_cons]
      intro a ha
      rcases List.mem_cons.mp ha with h3 | h3
      · exact h3 ▸ List.mem_cons_self _ _
      · exact List.mem_cons_of_mem _ (ih h3)

theorem keysNodup_listDel {α : Type} (k : String) :
    ∀ m : List (String × α), KeysNodup m → KeysNodup (listDel k m) := by
  intro m
  induction m with
  | nil => intro _; trivial
  | cons hd tl ih =>
    obtain ⟨k1, v1⟩ := hd
    intro hnd
    unfold KeysNodup at hnd
    simp only [List.map_cons, List.nodup_cons] at hnd
    by_cases h : k1 = k
    · simpa [listDel, h] using ih hnd.2
    · have htl := ih hnd.2
      unfold KeysNodup at htl ⊢
      simp only [listDel, if_neg h, List.map_cons, List.nodup_cons]
      exact ⟨fun hmem => hnd.1 (listDel_keys_subset k tl hmem), htl⟩

/-! ## The LunarDB key-value store (package `main`) -/

/-- Type `LunarDB` from `main`: `data map[string]string` guarded by a reader/writer
lock.  The lock only orders accesses; each method is a single critical section,
so methods embed as plain functions on the map. -/
structure LunarDB where
  data : List (String × String)

/-- Constructor `NewLunarDB`: empty store. -/
def NewLunarDB : LunarDB := ⟨[]⟩

/-- Method `func (db *LunarDB) Set(key, value string)`: insert or overwrite. -/
def LunarDB.Set (db : LunarDB) (key value : String) : LunarDB :=
  ⟨listSet key value db.data⟩

/-- Method `func (db *LunarDB) Get(key string) (string, bool)`: Go's comma-ok map
read; the zero value `""` is returned when the key is absent. -/
def LunarDB.Get (db : LunarDB) (key : String) : String × Bool :=
  match listLookup key db.data with
  | some v => (v, true)
  | none => ("", false)

/-- Method `func (db *LunarDB) Del(key string) bool`: checks presence, deletes when
present, and reports whether the key existed. -/
def LunarDB.Del (db : LunarDB) (key : String) : Bool × LunarDB :=
  match listLookup key db.data with
  | some _ => (true, ⟨listDel key db.data⟩)
  | none => (false, db)

/-- Method `func (db *LunarDB) Keys() []string`: the keys of the map, in map order. -/
def LunarDB.Keys (db : LunarDB) : List String :=
  db.data.map Prod.fst

/-! ## The request-level store operations (the gin handlers) -/

/-- The store operation a request carries (setHandler, getHandler, delHandler,
keysHandler). -/
inductive StoreOp where
  | setOp (key value : String)
  | getOp (key : String)
  | delOp (key : String)
  | keysOp
deriving DecidableEq

/-- The handler outcome reported to the transport layer. -/
inductive OpResult where
  | okResult
  | valueResult (v : String)
  | notFound
  | keyList (ks : List String)
deriving DecidableEq

/-- One handler invocation: `setHandler` / `getHandler` / `delHandler` /
`keysHandler` from `main`, returning the possibly-changed store and the
response payload (404 "Key not found" becomes `notFound`). -/
def applyOp (db : LunarDB) : StoreOp → LunarDB × OpResult
  | .setOp k v => (db.Set k v, .okResult)
  | .getOp k =>
    let r := db.Get k
    if r.2 then (db, .valueResult r.1) else (db, .notFound)
  | .delOp k =>
    let r := db.Del k
    if r.1 then (r.2, .okResult) else (r.2, .notFound)
  | .keysOp => (db, .keyList db.Keys)

/-- Run a sequence of handler invocations, keeping the final store. -/
def applyOps (db : LunarDB) : List StoreOp → LunarDB
  | [] => db
  | op :: rest => applyOps (applyOp db op).1 rest

/-- Whether an operation only reads the store (`Get` and `Keys` take the
shared read lock and never write `db.data`). -/
def StoreOp.isRead : StoreOp → Bool
  | .getOp _ => true
  | .keysOp => true
  | _ => false

/-! ## The token bucket (`rate.Limiter`) -/

/-- Modelled from the spec: the token-bucket type behind `rate.Limiter`
(`golang.org/x/time/rate`) is an external dependency, not part of this
repository's sources.  Per §3/§4.1 of the design: a refill rate (tokens per
second), a burst capacity, a current token count in `[0, burst]`, and a
last-refill timestamp.  The `id` field embeds Go pointer identity: each
`rate.NewLimiter` allocation gets a fresh `id`, so two buckets are the same
instance exactly when their `id`s agree. -/
structure Limiter where
  id : Nat
  rateLimit : ℚ
  burst : Nat
  tokens : ℚ
  lastRefill : ℚ
deriving DecidableEq

/-- Modelled from the spec: `rate.NewLimiter(r, b)` — a fresh bucket, created
full (§8's concrete scenario starts a new bucket with `burst` admissions
available). -/
def rateNewLimiter (id : Nat) (r : ℚ) (b : Nat) (now : ℚ) : Limiter :=
  ⟨id, r, b, (b : ℚ), now⟩

/-- Modelled from the spec (§4.1): the token count advanced by
`rate * elapsed_time_since_last_refill`, capped at `burst`. -/
def Limiter.refill (l : Limiter) (now : ℚ) : ℚ :=
  if (l.burst : ℚ) < l.tokens + l.rateLimit * (now - l.lastRefill) then (l.burst : ℚ)
  else l.tokens + l.rateLimit * (now - l.lastRefill)

/-- Modelled from the spec (§4.1): `Allow()` refills, then, if the refilled
count is ≥ 1, subtracts 1 and admits; otherwise it rejects and keeps only
the refill.  Both paths record the refill time. -/
def Limiter.Allow (l : Limiter) (now : ℚ) : Bool × Limiter :=
  if 1 ≤ l.refill now then
    (true, { l with tokens := l.refill now - 1, lastRefill := now })
  else
    (false, { l with tokens := l.refill now, lastRefill := now })

/-- Run `Allow` at each time of a list, returning the decisions and the final
bucket. -/
def allowSeq (l : Limiter) : List ℚ → List Bool × Limiter
  | [] => ([], l)
  | t :: ts =>
    let r := l.Allow t
    let rest := allowSeq r.2 ts
    (r.1 :: rest.1, rest.2)

/-! ## The per-IP rate-limiter registry (package `middleware`) -/

/-- Type `Client`: the per-visitor record — its limiter and the last time the
visitor was seen. -/
structure Client where
  limiter : Limiter
  lastSeen : ℚ
deriving DecidableEq

/-- Type `IPRateLimiter`: the registry.  `muLocked` embeds the (non-reentrant)
`sync.Mutex`; `nextId` embeds the allocator supplying fresh `rate.Limiter`
identities. -/
structure IPRateLimiter where
  clients : List (String × Client)
  muLocked : Bool
  nextId : Nat
  rateLimit : ℚ
  burst : Nat
  expiration : ℚ
deriving DecidableEq

/-- One hour, in seconds. -/
def oneHour : ℚ := 3600

/-- Constructor `NewIPRateLimiter(r, b)`: empty registry, expiration fixed at 1 hour. -/
def NewIPRateLimiter (r : ℚ) (b : Nat) : IPRateLimiter :=
  ⟨[], false, 0, r, b, oneHour⟩

/-- Method `func (rl *IPRateLimiter) AddClient(ip string) *rate.Limiter`: allocates a
fresh limiter, then takes `rl.mu` (blocking forever — `none` — if it is
already held), stores `{limiter, lastSeen: time.Now()}` under `ip`, unlocks,
and returns the limiter. -/
def IPRateLimiter.AddClient (rl : IPRateLimiter) (ip : String) (now : ℚ) :
    Option (Limiter × IPRateLimiter) :=
  let limiter := rateNewLimiter rl.nextId rl.rateLimit rl.burst now
  if rl.muLocked then none
  else
    some (limiter,
      { rl with
        clients := listSet ip ⟨limiter, now⟩ rl.clients
        nextId := rl.nextId + 1
        muLocked := false })

/-- Method `func (rl *IPRateLimiter) GetLimiter(ip string) *rate.Limiter`: takes
`rl.mu` (deferring its release to function exit), looks up `ip`; when absent
it calls `rl.AddClient(ip)` — which tries to take the mutex this call still
holds, so that path blocks forever (`none`); when present it refreshes the
entry's `lastSeen` and returns the stored limiter. -/
def IPRateLimiter.GetLimiter (rl : IPRateLimiter) (ip : String) (now : ℚ) :
    Option (Limiter × IPRateLimiter) :=
  if rl.muLocked then none
  else
    let held : IPRateLimiter := { rl with muLocked := true }
    match listLookup ip held.clients with
    | none => held.AddClient ip now
    | some client =>
      some (client.limiter,
        { held with
          clients := listSet ip ⟨client.limiter, now⟩ held.clients
          muLocked := false })

/-- Method `func (rl *IPRateLimiter) CleanupStaleClients()`: under `rl.mu`, deletes
every entry with `time.Since(client.lastSeen) > rl.expiration`. -/
def IPRateLimiter.CleanupStaleClients (rl : IPRateLimiter) (now : ℚ) :
    Option IPRateLimiter :=
  if rl.muLocked then none
  else
    some { rl with
      clients := rl.clients.filter (fun p => !(decide (rl.expiration < now - p.2.lastSeen))) }

/-! ## The admission middleware (`RateLimitMiddleware`) -/

/-- The request fields the middleware consults: `r.RemoteAddr` and the
`X-Forwarded-For` header (`""` when the header is absent). -/
structure Request where
  remoteAddr : String
  forwardedFor : String
deriving DecidableEq

/-- Identity derivation inside the middleware handler: start from
`r.RemoteAddr`, overridden by a non-empty `X-Forwarded-For` header. -/
def clientIP (r : Request) : String :=
  if r.forwardedFor ≠ "" then r.forwardedFor else r.remoteAddr

/-- What the middleware hands back: a 429 "Rate limit exceeded", or the
wrapped handler's result. -/
inductive Response where
  | rateLimited
  | served (res : OpResult)
deriving DecidableEq

/-- Embeds the in-place mutation of the shared `*rate.Limiter` performed by
`Allow()`: the advanced bucket is written back into the registry entry the
returned pointer aliases. -/
def writeBack (rl : IPRateLimiter) (ip : String) (lim : Limiter) : IPRateLimiter :=
  match listLookup ip rl.clients with
  | some c => { rl with clients := listSet ip ⟨lim, c.lastSeen⟩ rl.clients }
  | none => rl

/-- The per-request body of `RateLimitMiddleware`, composed with a store
handler as the wrapped `next`: derive the client IP, fetch its limiter via
`GetLimiter` (which may block forever, `none`), call `Allow()` on the shared
bucket (`writeBack` records its mutation), and either answer 429 without
touching the store or run the store handler. -/
def RateLimitMiddleware (rl : IPRateLimiter) (db : LunarDB) (req : Request)
    (op : StoreOp) (now : ℚ) : Option (Response × IPRateLimiter × LunarDB) :=
  match rl.GetLimiter (clientIP req) now with
  | none => none
  | some (limiter, rl1) =>
    if (limiter.Allow now).1 then
      some (.served (applyOp db op).2,
        writeBack rl1 (clientIP req) (limiter.Allow now).2, (applyOp db op).1)
    else
      some (.rateLimited, writeBack rl1 (clientIP req) (limiter.Allow now).2, db)

/-- Run the middleware on the same request once per time in the list,
threading registry and store. -/
def runMiddlewareSeq (rl : IPRateLimiter) (db : LunarDB) (req : Request)
    (op : StoreOp) : List ℚ → Option (IPRateLimiter × LunarDB)
  | [] => some (rl, db)
  | t :: ts =>
    match RateLimitMiddleware rl db req op t with
    | none => none
    | some r => runMiddlewareSeq r.2.1 r.2.2 req op ts

/-! ## Store lemmas -/

theorem get_snd_false_iff (db : LunarDB) (k : String) :
    (db.Get k).2 = false ↔ listLookup k db.data = none := by
  unfold LunarDB.Get
  rcases listLookup k db.data with _ | v <;> simp

theorem get_snd_true_iff (db : LunarDB) (k : String) :
    (db.Get k).2 = true ↔ listLookup k db.data ≠ none := by
  unfold LunarDB.Get
  rcases listLookup k db.data with _ | v <;> simp

/-- C3: for every store state, key `k` and value `v`: `Get` right after
`Set(k, v)` returns `(v, true)`; `Get` right after `Del(k)` returns
`("", false)`; `Del` reports `true` exactly when the key was present; `Del`
on an absent key reports `false` and leaves the store unchanged, so a second
consecutive `Del` reports `false`. -/
theorem store_set_get_del_roundtrip (db dbA : LunarDB) (k v kA : String)
    (habs : (dbA.Get kA).2 = false) :
    (db.Set k v).Get k = (v, true) ∧
    (db.Del k).2.Get k = ("", false) ∧
    (db.Del k).1 = (db.Get k).2 ∧
    (dbA.Del kA).1 = false ∧
    (dbA.Del kA).2 = dbA ∧
    ((db.Del k).2.Del k).1 = false := by
  rw [get_snd_false_iff] at habs
  refine ⟨?_, ?_, ?_, ?_, ?_, ?_⟩
  · simp [LunarDB.Set, LunarDB.Get, listLookup_set_self]
  · unfold LunarDB.Del
    rcases h : listLookup k db.data with _ | w
    · simp [h, LunarDB.Get]
    · simp [LunarDB.Get, listLookup_del_self]
  · unfold LunarDB.Del LunarDB.Get
    rcases h : listLookup k db.data with _ | w <;> simp
  · simp [LunarDB.Del, habs]
  · simp [LunarDB.Del, habs]
  · unfold LunarDB.Del
    rcases h : listLookup k db.data with _ | w
    · simp [h]
    · simp [listLookup_del_self]

theorem store_set_get_del_roundtrip_witness :
    ((NewLunarDB.Get "x").2 = false) ∧
    (((NewLunarDB.Set "a" "1").Set "k" "v").Get "k" = ("v", true) ∧
     ((NewLunarDB.Set "a" "1").Del "k").2.Get "k" = ("", false) ∧
     ((NewLunarDB.Set "a" "1").Del "k").1 = ((NewLunarDB.Set "a" "1").Get "k").2 ∧
     (NewLunarDB.Del "x").1 = false ∧
     (NewLunarDB.Del "x").2 = NewLunarDB ∧
     (((NewLunarDB.Set "a" "1").Del "k").2.Del "k").1 = false) :=
  ⟨by decide,
   store_set_get_del_roundtrip (NewLunarDB.Set "a" "1") NewLunarDB "k" "v" "x" (by decide)⟩

/-- C6: under the map well-formedness invariant (which `Set` and `Del`
preserve), `Keys()` lists exactly the present keys, without duplicates and
without dangling keys; concretely, from the empty store, after
`Set("a","1")`, `Set("b","2")`, `Del("a")` it returns exactly `["b"]`. -/
theorem keys_exact_snapshot (db : LunarDB) (k kW vW : String)
    (hnd : KeysNodup db.data) :
    db.Keys.Nodup ∧
    (k ∈ db.Keys ↔ (db.Get k).2 = true) ∧
    KeysNodup (db.Set kW vW).data ∧
    KeysNodup (db.Del kW).2.data ∧
    ((((NewLunarDB.Set "a" "1").Set "b" "2").Del "a").2.Keys = ["b"]) := by
  refine ⟨hnd, ?_, ?_, ?_, by decide⟩
  · rw [get_snd_true_iff]
    unfold LunarDB.Keys
    rw [← listLookup_isSome_iff_mem]
    rcases listLookup k db.data with _ | v <;> simp
  · exact keysNodup_listSet kW vW db.data hnd
  · unfold LunarDB.Del
    rcases h : listLookup kW db.data with _ | w
    · simpa using hnd
    · simpa using keysNodup_listDel kW db.data hnd

theorem keys_exact_snapshot_witness :
    KeysNodup (NewLunarDB.Set "b" "2").data ∧
    ((NewLunarDB.Set "b" "2").Keys.Nodup ∧
     ("b" ∈ (NewLunarDB.Set "b" "2").Keys ↔ ((NewLunarDB.Set "b" "2").Get "b").2 = true) ∧
     KeysNodup ((NewLunarDB.Set "b" "2").Set "c" "3").data ∧
     KeysNodup ((NewLunarDB.Set "b" "2").Del "c").2.data ∧
     ((((NewLunarDB.Set "a" "1").Set "b" "2").Del "a").2.Keys = ["b"])) :=
  ⟨by simp [KeysNodup, NewLunarDB, LunarDB.Set, listSet],
   keys_exact_snapshot (NewLunarDB.Set "b" "2") "b" "c" "3"
     (by simp [KeysNodup, NewLunarDB, LunarDB.Set, listSet])⟩

/-- C10: `Get` and `Keys` are read-only — running any sequence of handler
invocations consisting only of read operations leaves the store's mapping
exactly as it was. -/
theorem get_keys_read_only (db : LunarDB) (ops : List StoreOp)
    (hread : ops.all StoreOp.isRead = true) :
    applyOps db ops = db := by
  induction ops generalizing db with
  | nil => rfl
  | cons op rest ih =>
    simp only [List.all_cons, Bool.and_eq_true] at hread
    have hstep : (applyOp db op).1 = db := by
      cases op with
      | setOp k v => simp [StoreOp.isRead] at hread
      | getOp k =>
        unfold applyOp
        rcases h : db.Get k with ⟨v, found⟩
        cases found <;> simp [h]
      | delOp k => simp [StoreOp.isRead] at hread
      | keysOp => rfl
    unfold applyOps
    rw [hstep]
    exact ih db hread.2

theorem get_keys_read_only_witness :
    ([StoreOp.getOp "a", StoreOp.keysOp, StoreOp.getOp "zz"].all StoreOp.isRead = true) ∧
    applyOps (NewLunarDB.Set "a" "1")
      [StoreOp.getOp "a", StoreOp.keysOp, StoreOp.getOp "zz"] = NewLunarDB.Set "a" "1" :=
  ⟨by decide,
   get_keys_read_only (NewLunarDB.Set "a" "1")
     [StoreOp.getOp "a", StoreOp.keysOp, StoreOp.getOp "zz"] (by decide)⟩

/-! ## Registry theorems -/

/-- C1: refuted as stated — the first-time path of `GetLimiter` never
completes.  `GetLimiter` takes `rl.mu` and, while still holding it, calls
`AddClient`, which tries to take the same non-reentrant mutex; for every
identity with no existing entry the call therefore blocks forever (`none`)
instead of returning a fresh bucket. -/
theorem getLimiter_first_time_blocks (rl : IPRateLimiter) (ip : String) (now : ℚ)
    (hfree : rl.muLocked = false) (habs : listLookup ip rl.clients = none) :
    rl.GetLimiter ip now = none := by
  unfold IPRateLimiter.GetLimiter IPRateLimiter.AddClient
  simp [hfree, habs]

theorem getLimiter_first_time_blocks_witness :
    ((NewIPRateLimiter 1 5).muLocked = false ∧
     listLookup "1.2.3.4" (NewIPRateLimiter 1 5).clients = none) ∧
    (NewIPRateLimiter 1 5).GetLimiter "1.2.3.4" 0 = none :=
  ⟨⟨rfl, rfl⟩, getLimiter_first_time_blocks (NewIPRateLimiter 1 5) "1.2.3.4" 0 rfl rfl⟩

/-- C2: whenever two consecutive `GetLimiter` calls for the same identity
with no intervening write both complete, they return the same `*rate.Limiter`
instance, and the registry map keeps at most one entry per identity (its key
well-formedness is preserved by both calls). -/
theorem getLimiter_idempotent_unique (rl rl1 rl2 : IPRateLimiter)
    (ip : String) (t1 t2 : ℚ) (b1 b2 : Limiter)
    (hnd : KeysNodup rl.clients)
    (h1 : rl.GetLimiter ip t1 = some (b1, rl1))
    (h2 : rl1.GetLimiter ip t2 = some (b2, rl2)) :
    b1 = b2 ∧ KeysNodup rl1.clients ∧ KeysNodup rl2.clients := by
  unfold IPRateLimiter.GetLimiter IPRateLimiter.AddClient at h1
  cases hL : rl.muLocked with
  | true => rw [hL] at h1; simp at h1
  | false =>
  rw [hL] at h1
  simp only [Bool.false_eq_true, if_false] at h1
  rcases hm : listLookup ip rl.clients with _ | c
  · rw [hm] at h1
    simp at h1
  · rw [hm] at h1
    simp only [Option.some.injEq, Prod.mk.injEq] at h1
    obtain ⟨hb1, hrl1⟩ := h1
    have hnd1 : KeysNodup rl1.clients := by
      rw [← hrl1]
      exact keysNodup_listSet ip ⟨c.limiter, t1⟩ rl.clients hnd
    unfold IPRateLimiter.GetLimiter at h2
    have hL1 : rl1.muLocked = false := by rw [← hrl1]
    rw [hL1] at h2
    simp only [Bool.false_eq_true, if_false] at h2
    have hm1 : listLookup ip rl1.clients = some ⟨c.limiter, t1⟩ := by
      rw [← hrl1]
      exact listLookup_set_self ip ⟨c.limiter, t1⟩ rl.clients
    rw [show ({ rl1 with muLocked := true } : IPRateLimiter).clients = rl1.clients from rfl,
      hm1] at h2
    simp only [Option.some.injEq, Prod.mk.injEq] at h2
    obtain ⟨hb2, hrl2⟩ := h2
    refine ⟨by rw [← hb1, ← hb2], hnd1, ?_⟩
    rw [← hrl2]
    exact keysNodup_listSet ip ⟨c.limiter, t2⟩ rl1.clients hnd1

/-- A registry holding one entry for "a", as produced by
`(NewIPRateLimiter 1 5).AddClient "a" 0`. -/
def regW0 : IPRateLimiter := ⟨[("a", ⟨⟨0, 1, 5, 5, 0⟩, 0⟩)], false, 1, 1, 5, oneHour⟩

/-- State `regW0` after `GetLimiter "a"` at time 2. -/
def regW1 : IPRateLimiter := ⟨[("a", ⟨⟨0, 1, 5, 5, 0⟩, 2⟩)], false, 1, 1, 5, oneHour⟩

/-- State `regW1` after `GetLimiter "a"` at time 3. -/
def regW2 : IPRateLimiter := ⟨[("a", ⟨⟨0, 1, 5, 5, 0⟩, 3⟩)], false, 1, 1, 5, oneHour⟩

theorem regW0_step : regW0.GetLimiter "a" 2 = some (⟨0, 1, 5, 5, 0⟩, regW1) := by
  simp [IPRateLimiter.GetLimiter, regW0, regW1, listLookup, listSet]

theorem regW1_step : regW1.GetLimiter "a" 3 = some (⟨0, 1, 5, 5, 0⟩, regW2) := by
  simp [IPRateLimiter.GetLimiter, regW1, regW2, listLookup, listSet]

theorem regW0_nodup : KeysNodup regW0.clients := by
  simp [KeysNodup, regW0]

theorem getLimiter_idempotent_unique_witness :
    (KeysNodup regW0.clients ∧
     regW0.GetLimiter "a" 2 = some (⟨0, 1, 5, 5, 0⟩, regW1) ∧
     regW1.GetLimiter "a" 3 = some (⟨0, 1, 5, 5, 0⟩, regW2)) ∧
    ((⟨0, 1, 5, 5, 0⟩ : Limiter) = ⟨0, 1, 5, 5, 0⟩ ∧
     KeysNodup regW1.clients ∧ KeysNodup regW2.clients) :=
  ⟨⟨regW0_nodup, regW0_step, regW1_step⟩,
   getLimiter_idempotent_unique regW0 regW1 regW2 "a" 2 3 ⟨0, 1, 5, 5, 0⟩ ⟨0, 1, 5, 5, 0⟩
     regW0_nodup regW0_step regW1_step⟩

/-- C5: a completed sweep keeps an entry exactly when it was present before
and its last-seen time is not older than `now` minus the expiration window,
keeping the entry (bucket and timestamp) itself untouched; with the 1-hour
expiration fixed by `NewIPRateLimiter`, an entry created at time 0 survives a
sweep at 59 min (3540 s) and is removed by a sweep at 61 min (3660 s). -/
theorem cleanup_removes_exactly_stale (rl rlAfter : IPRateLimiter) (now : ℚ)
    (ip : String) (c : Client)
    (h : rl.CleanupStaleClients now = some rlAfter) :
    ((ip, c) ∈ rlAfter.clients ↔
      (ip, c) ∈ rl.clients ∧ ¬(c.lastSeen < now - rl.expiration)) ∧
    (((NewIPRateLimiter 1 5).AddClient "c" 0).bind
        (fun p => p.2.CleanupStaleClients 3540)).map
          (fun st => st.clients.map Prod.fst) = some ["c"] ∧
    (((NewIPRateLimiter 1 5).AddClient "c" 0).bind
        (fun p => p.2.CleanupStaleClients 3660)).map
          (fun st => st.clients.map Prod.fst) = some [] := by
  refine ⟨?_, ?_, ?_⟩
  · unfold IPRateLimiter.CleanupStaleClients at h
    cases hL : rl.muLocked with
    | true => rw [hL] at h; simp at h
    | false =>
      rw [hL] at h
      simp only [Bool.false_eq_true, if_false, Option.some.injEq] at h
      rw [← h]
      simp only [List.mem_filter, Bool.not_eq_eq_eq_not, Bool.not_true, decide_eq_false_iff_not]
      constructor
      · rintro ⟨hmem, hns⟩
        exact ⟨hmem, fun hlt => hns (by linarith)⟩
      · rintro ⟨hmem, hns⟩
        exact ⟨hmem, fun hlt => hns (by linarith)⟩
  · norm_num [IPRateLimiter.AddClient, IPRateLimiter.CleanupStaleClients,
      NewIPRateLimiter, rateNewLimiter, listSet, oneHour, Option.bind]
  · norm_num [IPRateLimiter.AddClient, IPRateLimiter.CleanupStaleClients,
      NewIPRateLimiter, rateNewLimiter, listSet, oneHour, Option.bind]

theorem cleanup_removes_exactly_stale_witness :
    (regW0.CleanupStaleClients 10 = some regW0) ∧
    ((("a", (⟨⟨0, 1, 5, 5, 0⟩, 0⟩ : Client)) ∈ regW0.clients ↔
      ("a", (⟨⟨0, 1, 5, 5, 0⟩, 0⟩ : Client)) ∈ regW0.clients ∧
        ¬((0 : ℚ) < 10 - regW0.expiration)) ∧
     (((NewIPRateLimiter 1 5).AddClient "c" 0).bind
         (fun p => p.2.CleanupStaleClients 3540)).map
           (fun st => st.clients.map Prod.fst) = some ["c"] ∧
     (((NewIPRateLimiter 1 5).AddClient "c" 0).bind
         (fun p => p.2.CleanupStaleClients 3660)).map
           (fun st => st.clients.map Prod.fst) = some []) :=
  ⟨by norm_num [IPRateLimiter.CleanupStaleClients, regW0, oneHour],
   cleanup_removes_exactly_stale regW0 regW0 10 "a" ⟨⟨0, 1, 5, 5, 0⟩, 0⟩
     (by norm_num [IPRateLimiter.CleanupStaleClients, regW0, oneHour])⟩

/-! ## Token-bucket theorems -/

/-- C4: a bucket with rate 1 token/s and burst 5, starting full: six `Allow`
calls back-to-back at elapsed time 0 admit exactly five times and then reject
once, and one second later the next `Allow` admits again. -/
theorem token_bucket_burst_scenario :
    (allowSeq (rateNewLimiter 0 1 5 0) [0, 0, 0, 0, 0, 0, 1]).1 =
      [true, true, true, true, true, false, true] := by
  norm_num [allowSeq, Limiter.Allow, Limiter.refill, rateNewLimiter]

/-- The bucket's state invariant (§3): non-negative rate and a token count
within `[0, burst]`. -/
def Limiter.Valid (l : Limiter) : Prop :=
  0 ≤ l.rateLimit ∧ 0 ≤ l.tokens ∧ l.tokens ≤ (l.burst : ℚ)

/-- The call times of a sequence of `Allow` calls, in wall-clock order
starting no earlier than a given instant. -/
def ValidTimes : ℚ → List ℚ → Prop
  | _, [] => True
  | t0, t :: ts => t0 ≤ t ∧ ValidTimes t ts

theorem allow_step_valid (l : Limiter) (t : ℚ) (hv : l.Valid) (ht : l.lastRefill ≤ t) :
    (l.Allow t).2.Valid ∧ (l.Allow t).2.lastRefill = t ∧
    (l.Allow t).2.burst = l.burst := by
  obtain ⟨hr, h0, hb⟩ := hv
  have helapsed : (0 : ℚ) ≤ t - l.lastRefill := by linarith
  have hre0 : 0 ≤ l.refill t := by
    unfold Limiter.refill
    split
    · positivity
    · nlinarith [mul_nonneg hr helapsed]
  have hreb : l.refill t ≤ (l.burst : ℚ) := by
    unfold Limiter.refill
    split
    · exact le_refl _
    · linarith [not_lt.mp (by assumption : ¬((l.burst : ℚ) < l.tokens + l.rateLimit * (t - l.lastRefill)))]
  unfold Limiter.Allow Limiter.Valid
  by_cases h1 : 1 ≤ l.refill t
  · rw [if_pos h1]
    refine ⟨⟨hr, ?_, ?_⟩, rfl, rfl⟩
    · show (0 : ℚ) ≤ l.refill t - 1
      linarith
    · show l.refill t - 1 ≤ (l.burst : ℚ)
      linarith
  · rw [if_neg h1]
    exact ⟨⟨hr, hre0, hreb⟩, rfl, rfl⟩

theorem allowSeq_valid (l : Limiter) (ts : List ℚ)
    (hv : l.Valid) (ht : ValidTimes l.lastRefill ts) :
    (allowSeq l ts).2.Valid ∧ (allowSeq l ts).2.burst = l.burst := by
  induction ts generalizing l with
  | nil => exact ⟨hv, rfl⟩
  | cons t rest ih =>
    obtain ⟨h1, h2⟩ := ht
    have hs := allow_step_valid l t hv h1
    have hrest := ih (l.Allow t).2 hs.1 (by rw [hs.2.1]; exact h2)
    unfold allowSeq
    exact ⟨hrest.1, by rw [hrest.2, hs.2.2]⟩

theorem validTimes_take (n : Nat) :
    ∀ (t0 : ℚ) (ts : List ℚ), ValidTimes t0 ts → ValidTimes t0 (ts.take n) := by
  induction n with
  | zero => intro t0 ts _; trivial
  | succ m ih =>
    intro t0 ts h
    cases ts with
    | nil => trivial
    | cons t rest => exact ⟨h.1, ih t rest h.2⟩

/-- C7: along any sequence of `Allow` calls issued in wall-clock order on a
well-formed bucket, the token count stays within `[0, burst]` at every
point: after any prefix of the calls it is non-negative and does not exceed
the (unchanged) burst capacity. -/
theorem token_count_bounded (l : Limiter) (ts : List ℚ) (n : Nat)
    (hv : l.Valid) (ht : ValidTimes l.lastRefill ts) :
    0 ≤ (allowSeq l (ts.take n)).2.tokens ∧
    (allowSeq l (ts.take n)).2.tokens ≤ (l.burst : ℚ) := by
  have h := allowSeq_valid l (ts.take n) hv (validTimes_take n l.lastRefill ts ht)
  refine ⟨h.1.2.1, ?_⟩
  have hb := h.1.2.2
  rw [h.2] at hb
  exact hb

theorem token_count_bounded_witness :
    ((rateNewLimiter 0 1 5 0).Valid ∧ ValidTimes (rateNewLimiter 0 1 5 0).lastRefill [0, 1/2, 2]) ∧
    (0 ≤ (allowSeq (rateNewLimiter 0 1 5 0) ([0, 1/2, 2].take 2)).2.tokens ∧
     (allowSeq (rateNewLimiter 0 1 5 0) ([0, 1/2, 2].take 2)).2.tokens ≤
       ((rateNewLimiter 0 1 5 0).burst : ℚ)) :=
  ⟨⟨by norm_num [Limiter.Valid, rateNewLimiter], by norm_num [ValidTimes, rateNewLimiter]⟩,
   token_count_bounded (rateNewLimiter 0 1 5 0) [0, 1/2, 2] 2
     (by norm_num [Limiter.Valid, rateNewLimiter])
     (by norm_num [ValidTimes, rateNewLimiter])⟩

/-! ## Identity derivation and admission composition -/

/-- C9: the middleware's client identity is the `X-Forwarded-For` header
value whenever that header is non-empty, and the raw `RemoteAddr` otherwise
(first non-empty value wins); an empty identity is handled as an ordinary,
degenerate registry key — a request resolving to `""` with an entry present
goes through the admission path normally (`GetLimiter` completes and hands
back that entry's bucket). -/
theorem client_identity_derivation (req reqE : Request) (rl : IPRateLimiter)
    (c : Client) (now : ℚ)
    (hfwd : req.forwardedFor ≠ "")
    (hE : reqE.forwardedFor = "")
    (hfree : rl.muLocked = false)
    (hc : listLookup "" rl.clients = some c) :
    clientIP req = req.forwardedFor ∧
    clientIP reqE = reqE.remoteAddr ∧
    (rl.GetLimiter "" now).map Prod.fst = some c.limiter := by
  refine ⟨by simp [clientIP, hfwd], by simp [clientIP, hE], ?_⟩
  unfold IPRateLimiter.GetLimiter
  rw [hfree]
  simp only [Bool.false_eq_true, if_false]
  rw [show ({ rl with muLocked := true } : IPRateLimiter).clients = rl.clients from rfl, hc]
  rfl

/-- A registry holding one entry under the degenerate identity `""`. -/
def regE : IPRateLimiter := ⟨[("", ⟨⟨0, 1, 5, 5, 0⟩, 0⟩)], false, 1, 1, 5, oneHour⟩

theorem client_identity_derivation_witness :
    (((⟨"1.1.1.1", "2.2.2.2"⟩ : Request).forwardedFor ≠ "") ∧
     ((⟨"3.3.3.3", ""⟩ : Request).forwardedFor = "") ∧
     regE.muLocked = false ∧
     listLookup "" regE.clients = some ⟨⟨0, 1, 5, 5, 0⟩, 0⟩) ∧
    (clientIP ⟨"1.1.1.1", "2.2.2.2"⟩ = "2.2.2.2" ∧
     clientIP ⟨"3.3.3.3", ""⟩ = "3.3.3.3" ∧
     (regE.GetLimiter "" 7).map Prod.fst = some (⟨0, 1, 5, 5, 0⟩ : Limiter)) :=
  ⟨⟨by decide, rfl, rfl, rfl⟩,
   client_identity_derivation ⟨"1.1.1.1", "2.2.2.2"⟩ ⟨"3.3.3.3", ""⟩ regE
     ⟨⟨0, 1, 5, 5, 0⟩, 0⟩ 7 (by decide) rfl rfl rfl⟩

theorem allow_preserves_static (l : Limiter) (t : ℚ) :
    (l.Allow t).2.id = l.id ∧ (l.Allow t).2.rateLimit = l.rateLimit ∧
    (l.Allow t).2.burst = l.burst := by
  unfold Limiter.Allow
  split <;> exact ⟨rfl, rfl, rfl⟩

/-- C8 (amended): when `Allow()` rejects a request, the middleware answers
with the rate-limit error and the store handler never runs — the store
mapping and every registry entry for a different identity are unchanged;
the resolved identity's own entry is updated, but only by the bucket's
refill (`Allow`'s token/refill-time movement, which keeps the bucket's
identity, rate and burst) and by the entry's last-seen refresh to `now`. -/
theorem reject_leaves_store_untouched (rl : IPRateLimiter) (db : LunarDB)
    (req : Request) (op : StoreOp) (now : ℚ) (rl2 : IPRateLimiter) (db2 : LunarDB)
    (ipO : String) (c : Client)
    (h : RateLimitMiddleware rl db req op now = some (Response.rateLimited, rl2, db2))
    (hother : ipO ≠ clientIP req)
    (hc : listLookup (clientIP req) rl.clients = some c) :
    db2 = db ∧
    (c.limiter.Allow now).1 = false ∧
    listLookup ipO rl2.clients = listLookup ipO rl.clients ∧
    listLookup (clientIP req) rl2.clients = some ⟨(c.limiter.Allow now).2, now⟩ ∧
    (c.limiter.Allow now).2.id = c.limiter.id ∧
    (c.limiter.Allow now).2.rateLimit = c.limiter.rateLimit ∧
    (c.limiter.Allow now).2.burst = c.limiter.burst := by
  obtain ⟨hid, hrate, hburst⟩ := allow_preserves_static c.limiter now
  unfold RateLimitMiddleware IPRateLimiter.GetLimiter at h
  cases hL : rl.muLocked with
  | true => rw [hL] at h; simp at h
  | false =>
  rw [hL] at h
  simp only [Bool.false_eq_true, if_false] at h
  rw [show ({ rl with muLocked := true } : IPRateLimiter).clients = rl.clients from rfl,
    hc] at h
  simp only [] at h
  cases hA : (c.limiter.Allow now).1 with
  | true => rw [if_pos hA] at h; simp at h
  | false =>
  rw [if_neg (by rw [hA]; exact Bool.false_ne_true)] at h
  simp only [Option.some.injEq, Prod.mk.injEq] at h
  obtain ⟨-, hrl2, hdb2⟩ := h
  have hwb : rl2.clients =
      listSet (clientIP req) ⟨(c.limiter.Allow now).2, now⟩
        (listSet (clientIP req) ⟨c.limiter, now⟩ rl.clients) := by
    rw [← hrl2]
    unfold writeBack
    rw [show ({ rl with
        clients := listSet (clientIP req) ⟨c.limiter, now⟩ rl.clients,
        muLocked := false } : IPRateLimiter).clients =
      listSet (clientIP req) ⟨c.limiter, now⟩ rl.clients from rfl]
    rw [listLookup_set_self]
  refine ⟨hdb2.symm, rfl, ?_, ?_, hid, hrate, hburst⟩
  · rw [hwb, listLookup_set_other _ _ _ hother, listLookup_set_other _ _ _ hother]
  · rw [hwb, listLookup_set_self]

/-- The request of the C8 scenario: no forwarding header. -/
def reqC8 : Request := ⟨"10.0.0.1", ""⟩

/-- Registry one admission before exhaustion in the C8 scenario: the entry
for `10.0.0.1` has an empty bucket and `lastSeen = 0`. -/
def regB5 : IPRateLimiter := ⟨[("10.0.0.1", ⟨⟨0, 1, 5, 0, 0⟩, 0⟩)], false, 1, 1, 5, oneHour⟩

/-- State `regB5` after the rejected call at time 1/2: bucket refilled to 1/2 token
and, although the request was rejected, `lastSeen` refreshed to 1/2. -/
def regB6 : IPRateLimiter :=
  ⟨[("10.0.0.1", ⟨⟨0, 1, 5, 1/2, 1/2⟩, 1/2⟩)], false, 1, 1, 5, oneHour⟩

/-- Registry and store after `AddClient "10.0.0.1"` at time 0 and five
back-to-back admitted requests at time 0. -/
def chainBefore : Option (IPRateLimiter × LunarDB) :=
  ((NewIPRateLimiter 1 5).AddClient "10.0.0.1" 0).bind
    (fun p => runMiddlewareSeq p.2 NewLunarDB reqC8 StoreOp.keysOp [0, 0, 0, 0, 0])

/-- The sixth, rejected request, at time 1/2. -/
def chainC8 : Option (Response × IPRateLimiter × LunarDB) :=
  chainBefore.bind (fun q => RateLimitMiddleware q.1 q.2 reqC8 StoreOp.keysOp (1/2))

theorem stepC8 (tok : ℚ) (h1 : 1 ≤ tok) (hb : tok ≤ 5) :
    RateLimitMiddleware ⟨[("10.0.0.1", ⟨⟨0, 1, 5, tok, 0⟩, 0⟩)], false, 1, 1, 5, oneHour⟩
      NewLunarDB reqC8 StoreOp.keysOp 0 =
      some (.served (.keyList []),
        ⟨[("10.0.0.1", ⟨⟨0, 1, 5, tok - 1, 0⟩, 0⟩)], false, 1, 1, 5, oneHour⟩,
        NewLunarDB) := by
  have hnb : ¬((5 : ℚ) < tok) := not_lt.mpr hb
  norm_num [RateLimitMiddleware, IPRateLimiter.GetLimiter, Limiter.Allow, Limiter.refill,
    writeBack, listLookup, listSet, applyOp, LunarDB.Keys, NewLunarDB, clientIP, reqC8]
  simp only [if_neg hnb, if_pos h1]
  simp

theorem stepC8_reject :
    RateLimitMiddleware regB5 NewLunarDB reqC8 StoreOp.keysOp (1/2) =
      some (.rateLimited, regB6, NewLunarDB) := by
  norm_num [RateLimitMiddleware, IPRateLimiter.GetLimiter, Limiter.Allow, Limiter.refill,
    writeBack, listLookup, listSet, applyOp, NewLunarDB, clientIP, reqC8, regB5, regB6]

theorem chainBefore_eval : chainBefore = some (regB5, NewLunarDB) := by
  have s5 := stepC8 5 (by norm_num) (by norm_num)
  have s4 := stepC8 4 (by norm_num) (by norm_num)
  have s3 := stepC8 3 (by norm_num) (by norm_num)
  have s2 := stepC8 2 (by norm_num) (by norm_num)
  have s1 := stepC8 1 (by norm_num) (by norm_num)
  norm_num at s5 s4 s3 s2 s1
  norm_num [chainBefore, IPRateLimiter.AddClient, NewIPRateLimiter, rateNewLimiter,
    listSet, runMiddlewareSeq, Option.bind, s5, s4, s3, s2, s1, regB5]

/-- C8: refuted as literally stated — on the rejected sixth request of the
§8 scenario the middleware does leave the store untouched, but it mutates
registry state beyond the bucket's own refill: the entry's last-seen
timestamp, which is not bucket state, moves from 0 to 1/2. -/
theorem reject_mutates_lastSeen_counterexample :
    chainBefore.map (fun q => (listLookup "10.0.0.1" q.1.clients).map Client.lastSeen) =
      some (some (0 : ℚ)) ∧
    chainC8.map (fun r => r.1) = some Response.rateLimited ∧
    chainC8.map (fun r => r.2.2) = chainBefore.map (fun q => q.2) ∧
    chainC8.map (fun r => (listLookup "10.0.0.1" r.2.1.clients).map Client.lastSeen) =
      some (some (1/2 : ℚ)) ∧
    ((1/2 : ℚ) ≠ 0) := by
  have hb := chainBefore_eval
  have hs := stepC8_reject
  refine ⟨?_, ?_, ?_, ?_, by norm_num⟩
  · rw [hb]
    norm_num [regB5, listLookup]
  · rw [show chainC8 = some (.rateLimited, regB6, NewLunarDB) from by
      rw [chainC8, hb, Option.bind, hs]]
    rfl
  · rw [show chainC8 = some (.rateLimited, regB6, NewLunarDB) from by
      rw [chainC8, hb, Option.bind, hs], hb]
    rfl
  · rw [show chainC8 = some (.rateLimited, regB6, NewLunarDB) from by
      rw [chainC8, hb, Option.bind, hs]]
    norm_num [regB6, listLookup]

theorem reject_leaves_store_untouched_witness :
    (RateLimitMiddleware regB5 NewLunarDB reqC8 StoreOp.keysOp (1/2) =
        some (Response.rateLimited, regB6, NewLunarDB) ∧
     ("other" : String) ≠ clientIP reqC8 ∧
     listLookup (clientIP reqC8) regB5.clients = some ⟨⟨0, 1, 5, 0, 0⟩, 0⟩) ∧
    (NewLunarDB = NewLunarDB ∧
     ((⟨0, 1, 5, 0, 0⟩ : Limiter).Allow (1/2)).1 = false ∧
     listLookup "other" regB6.clients = listLookup "other" regB5.clients ∧
     listLookup (clientIP reqC8) regB6.clients =
       some ⟨((⟨0, 1, 5, 0, 0⟩ : Limiter).Allow (1/2)).2, 1/2⟩ ∧
     ((⟨0, 1, 5, 0, 0⟩ : Limiter).Allow (1/2)).2.id = (⟨0, 1, 5, 0, 0⟩ : Limiter).id ∧
     ((⟨0, 1, 5, 0, 0⟩ : Limiter).Allow (1/2)).2.rateLimit =
       (⟨0, 1, 5, 0, 0⟩ : Limiter).rateLimit ∧
     ((⟨0, 1, 5, 0, 0⟩ : Limiter).Allow (1/2)).2.burst =
       (⟨0, 1, 5, 0, 0⟩ : Limiter).burst) :=
  ⟨⟨stepC8_reject, by simp [clientIP, reqC8], by simp [clientIP, reqC8, regB5, listLookup]⟩,
   reject_leaves_store_untouched regB5 NewLunarDB reqC8 StoreOp.keysOp (1/2) regB6
     NewLunarDB "other" ⟨⟨0, 1, 5, 0, 0⟩, 0⟩ stepC8_reject
     (by simp [clientIP, reqC8]) (by simp [clientIP, reqC8, regB5, listLookup])⟩
